import Mathlib

/-!
Shallow embedding of the two SQLite/CSV command-line utilities:

* program 1 (`Cleaner_v02_classes` / `Cleaner_v02_classes_eng`, `main.py`):
  `DatabaseManager.insert_phrases`, `remove_phrases`, `export_to_csv`,
  `FileManager.clean_text`, and the `main` try/except/finally skeleton;
* program 2 (`Traffic/main.py`): `DatabaseUpdater.update_database` and
  `DatabaseExporter.export_to_csv`.

SQLite behaviour that the programs rely on is embedded explicitly:
the default `LIKE` operator (wildcards `%`/`_`, ASCII-only case folding),
binary TEXT comparison for `BETWEEN` (UTF-8 byte order, which coincides
with code-point lexicographic order), and `PRIMARY KEY` uniqueness.
-/

namespace Cleaner

/-- Whitespace class of Python's Unicode-aware `\s` / `str.strip()` (the
complete list): the tab through carriage-return controls, the
information-separator controls, space, next line, no-break space, ogham
space mark, the `U+2000`–`U+200A` spaces, line separator, paragraph
separator, narrow no-break space, medium mathematical space, and
ideographic space. -/
def isSpaceCh (c : Char) : Bool :=
  (0x09 ≤ c.val && c.val ≤ 0x0D) || (0x1C ≤ c.val && c.val ≤ 0x1F) ||
  c = ' ' || c.val = 0x85 || c.val = 0xA0 || c.val = 0x1680 ||
  (0x2000 ≤ c.val && c.val ≤ 0x200A) ||
  c.val = 0x2028 || c.val = 0x2029 || c.val = 0x202F ||
  c.val = 0x205F || c.val = 0x3000

/-- Word class of Python's Unicode-aware `\w`: alphanumeric characters
(letters and numeric characters) or underscore.  The model is exact on
the repertoire of this repository's data — Basic Latin, the Latin-1
supplement (its letters and its superscript/fraction numerics), and
Cyrillic including the supplement block (letters `U+0400`–`U+0481` and
`U+048A`–`U+052F`; the Cyrillic combining marks and the thousands sign
are not word characters).  Word characters of scripts beyond these
blocks are outside the modelled repertoire. -/
def isWordCh (c : Char) : Bool :=
  c.isAlpha || c.isDigit || c = '_' ||
  c.val = 0xAA || c.val = 0xB2 || c.val = 0xB3 || c.val = 0xB5 ||
  c.val = 0xB9 || c.val = 0xBA ||
  (0xBC ≤ c.val && c.val ≤ 0xBE) ||
  (0xC0 ≤ c.val && c.val ≤ 0xD6) || (0xD8 ≤ c.val && c.val ≤ 0xF6) ||
  (0xF8 ≤ c.val && c.val ≤ 0xFF) ||
  (0x400 ≤ c.val && c.val ≤ 0x481) || (0x48A ≤ c.val && c.val ≤ 0x52F)

/-- Python `str.strip()` on a character list: drop leading and trailing
whitespace. -/
def pyStripL (s : List Char) : List Char :=
  ((s.dropWhile isSpaceCh).reverse.dropWhile isSpaceCh).reverse

/-- Python `str.strip()` on a string. -/
def pyStrip (s : String) : String :=
  ⟨pyStripL s.toList⟩

/-- `re.sub(r'\s+', ' ', ·)`: replace every maximal run of whitespace by a
single space (a whitespace character followed by more whitespace is
dropped; the last character of a run becomes the single `' '`). -/
def collapseWs : List Char → List Char
  | [] => []
  | [c] => if isSpaceCh c then [' '] else [c]
  | c :: d :: cs =>
    if isSpaceCh c && isSpaceCh d then collapseWs (d :: cs)
    else (if isSpaceCh c then ' ' else c) :: collapseWs (d :: cs)

/-- `FileManager.clean_text`: collapse whitespace runs, strip the ends,
then delete every character that is neither a word character nor
whitespace (`re.sub(r'[^\w\s]', '', ·)`). -/
def clean_text (text : String) : String :=
  ⟨(pyStripL (collapseWs text.toList)).filter (fun c => isWordCh c || isSpaceCh c)⟩

/-- A row of the `search_phrases` table:
`id INTEGER PRIMARY KEY AUTOINCREMENT, phrase TEXT, date DATE`. -/
structure PhraseRow where
  id : Nat
  phrase : String
  date : String
deriving Repr, DecidableEq

/-- The phrase store: the rows of `search_phrases` in rowid order, plus the
AUTOINCREMENT sequence value (largest id ever issued). -/
structure PhraseStore where
  rows : List PhraseRow
  seq : Nat
deriving Repr, DecidableEq

/-- `DatabaseManager.insert_phrases`: for each phrase in order, run
`SELECT COUNT(*) FROM search_phrases WHERE phrase = ?` on the live
connection and insert the phrase with the current date only when the
count is zero.  The existence check sees rows inserted earlier in the
same call. -/
def insert_phrases (s : PhraseStore) (currentDate : String)
    (phrases : List String) : PhraseStore :=
  phrases.foldl
    (fun st p =>
      if st.rows.countP (fun r => r.phrase = p) = 0 then
        { rows := st.rows ++ [⟨st.seq + 1, p, currentDate⟩], seq := st.seq + 1 }
      else st)
    s

/-- SQLite's default `LIKE` on character lists: `%` matches any sequence,
`_` matches a single character, and other characters compare after
ASCII-only lower-casing (SQLite folds only `A`–`Z`). -/
def likeMatch : List Char → List Char → Bool
  | [], s => s.isEmpty
  | c :: p, s =>
    if c = '%' then
      likeMatch p s ||
        (match s with
         | [] => false
         | _ :: s' => likeMatch (c :: p) s')
    else
      match s with
      | [] => false
      | d :: s' =>
        if c = '_' then likeMatch p s'
        else c.toLower = d.toLower && likeMatch p s'
termination_by p s => p.length + s.length
decreasing_by all_goals simp_arith

/-- `phrase LIKE '%' || w || '%'` for an already-stripped word `w`. -/
def likeContains (w : String) (phrase : String) : Bool :=
  likeMatch ('%' :: (w.toList ++ ['%'])) phrase.toList

/-- `DatabaseManager.remove_phrases`: for each word in order, execute
`DELETE FROM search_phrases WHERE phrase LIKE '%' || word.strip() || '%'`. -/
def remove_phrases (s : PhraseStore) (negativeWords : List String) : PhraseStore :=
  negativeWords.foldl
    (fun st w =>
      { st with rows := st.rows.filter (fun r => !(likeContains (pyStrip w) r.phrase)) })
    s

/-- Binary (UTF-8 byte order = code-point order) text comparison used by
SQLite for `BETWEEN` on TEXT values. -/
def sqliteTextLe : List Char → List Char → Bool
  | [], _ => true
  | _ :: _, [] => false
  | a :: as, b :: bs =>
    a.val < b.val || (a.val = b.val && sqliteTextLe as bs)

/-- `DatabaseManager.export_to_csv`:
`SELECT * FROM search_phrases WHERE date BETWEEN ? AND ?`. -/
def export_to_csv (s : PhraseStore) (startDate endDate : String) : List PhraseRow :=
  s.rows.filter (fun r =>
    sqliteTextLe startDate.toList r.date.toList &&
      sqliteTextLe r.date.toList endDate.toList)

end Cleaner

namespace Cleaner

/-- The `main` skeleton of program 1: the body of the outer `try` either
fails before `db_manager` is bound (during `load_config`, the log-path
setup / config key accesses, or the `DatabaseManager` constructor), fails
later (inside the menu loop, with `db_manager` bound), or reaches the
`break` of the exit choice. -/
inductive MainOutcome where
  | configLoadFail
  | logSetupFail
  | dbConstructFail
  | loopFail
  | normalExit
deriving Repr, DecidableEq

/-- Whether the local variable `db_manager` is bound when the `finally`
block runs: it is bound exactly when the `DatabaseManager(...)`
construction completed. -/
def dbManagerBound : MainOutcome → Bool
  | .configLoadFail => false
  | .logSetupFail => false
  | .dbConstructFail => false
  | .loopFail => true
  | .normalExit => true

/-- Process exit code of program 1's `main`: the outer `except` swallows
any body exception and prints, so the exit code is decided by the
`finally` block.  `db_manager.close_connection()` succeeds when
`db_manager` is bound (exit 0); when it is unbound the name lookup raises
`NameError`, which propagates out of `main` and the interpreter exits
with code 1. -/
def mainExitCode (o : MainOutcome) : Nat :=
  if dbManagerBound o then 0 else 1

end Cleaner

namespace Traffic

/-- A row of a traffic table:
`url TEXT PRIMARY KEY, Google TEXT, Yandex TEXT, SeansAll TEXT`.
`none` models SQL NULL. -/
structure TrafficRow where
  url : String
  google : Option String
  yandex : Option String
  seansAll : Option String
deriving Repr, DecidableEq

abbrev TrafficTable := List TrafficRow

/-- An input CSV/dataframe row: the `URL` cell plus the values read from
the `Google`/`Yandex`/`SeansAll` columns (`none` when the column is
missing from the dataframe, matching
`row[col] if col in self.df.columns else None`). -/
structure InputRow where
  url : String
  google : Option String
  yandex : Option String
  seansAll : Option String
deriving Repr, DecidableEq

/-- A URL-only row as inserted by pass 1
(`INSERT INTO t (url) VALUES (?)` leaves the other columns NULL). -/
def urlOnlyRow (u : String) : TrafficRow :=
  { url := u, google := none, yandex := none, seansAll := none }

/-- Pass 1 of `DatabaseUpdater.update_database`: the `urls_to_add` list —
one entry per dataframe row whose URL is not among the pre-existing
URLs, in dataframe order (duplicates kept). -/
def urlsToAdd (existing : List String) (df : List InputRow) : List String :=
  (df.filter (fun r => !(existing.contains r.url))).map (·.url)

/-- The `executemany INSERT` of pass 1: append a URL-only row per URL;
a duplicate URL violates the `PRIMARY KEY` constraint and raises. -/
def pass1 (t : TrafficTable) (toAdd : List String) : Except String TrafficTable :=
  toAdd.foldlM
    (fun acc u =>
      if (acc.map (·.url)).contains u then
        .error "UNIQUE constraint failed"
      else
        .ok (acc ++ [urlOnlyRow u]))
    t

/-- One `UPDATE t SET Google=?, Yandex=?, SeansAll=? WHERE url=?`. -/
def updateRow (t : TrafficTable) (r : InputRow) : TrafficTable :=
  t.map (fun tr =>
    if tr.url = r.url then
      { url := tr.url, google := r.google, yandex := r.yandex, seansAll := r.seansAll }
    else tr)

/-- Pass 2 of `update_database`: for each dataframe row in order, update
the three value columns — but only when the URL was in `existing_urls`,
the set read before pass 1 ran. -/
def pass2 (existing : List String) (t : TrafficTable) (df : List InputRow) : TrafficTable :=
  df.foldl
    (fun acc r => if existing.contains r.url then updateRow acc r else acc)
    t

/-- `DatabaseUpdater.update_database` restricted to its target table:
read the existing URLs, run pass 1 (inserts), then pass 2 (updates). -/
def update_database (t : TrafficTable) (df : List InputRow) : Except String TrafficTable :=
  (pass1 t (urlsToAdd (t.map (fun r => r.url)) df)).map
    (fun t1 => pass2 (t.map (fun r => r.url)) t1 df)

/-- The whole SQLite file of program 2: named tables in creation order. -/
abbrev Database := List (String × TrafficTable)

def lookupTable (db : Database) (name : String) : Option TrafficTable :=
  (db.find? (fun p => p.1 = name)).map (·.2)

/-- `CREATE TABLE IF NOT EXISTS name (...)` (from `check_data_table`). -/
def ensureTable (db : Database) (name : String) : Database :=
  if (db.find? (fun p => p.1 = name)).isSome then db else db ++ [(name, [])]

def setTable (db : Database) (name : String) (t : TrafficTable) : Database :=
  db.map (fun p => if p.1 = name then (name, t) else p)

/-- `update_database` acting on the whole database: the table name is
derived from the CSV base name; the target table is created if absent
and then updated.  No SQL statement mentions any other table. -/
def updateDatabaseDB (db : Database) (name : String) (df : List InputRow) :
    Except String Database :=
  (update_database ((lookupTable (ensureTable db name) name).getD []) df).map
    (fun t' => setTable (ensureTable db name) name t')

/-- The on-disk effect of one `update_database` call: when pass 1 raises,
the exception propagates before any `conn.commit()` runs, the process
dies, and the uncommitted changes are discarded — the file keeps its old
contents. -/
def applyUpdate (db : Database) (name : String) (df : List InputRow) : Database :=
  match updateDatabaseDB db name df with
  | .ok db' => db'
  | .error _ => db

/-- The three data cells a table row contributes (`row[1:]`). -/
def rowData (r : TrafficRow) : List (Option String) :=
  [r.google, r.yandex, r.seansAll]

/-- The per-URL sub-dict of `export_data`: table name → data triple,
in insertion order, keys unique (Python dict semantics). -/
abbrev SubDict := List (String × List (Option String))

/-- `export_data`: URL → sub-dict, in insertion order, keys unique. -/
abbrev ExportDict := List (String × SubDict)

/-- Python `d[k] = v` on an association list with unique keys. -/
def assocSet (m : SubDict) (k : String) (v : List (Option String)) : SubDict :=
  if m.any (fun q => q.1 = k) then
    m.map (fun q => if q.1 = k then (k, v) else q)
  else m ++ [(k, v)]

/-- `export_data[url][table] = data`, creating `export_data[url]` as an
empty dict first when absent (the `if url not in export_data` branch). -/
def dictInsert (d : ExportDict) (u : String) (tname : String)
    (data : List (Option String)) : ExportDict :=
  if d.any (fun p => p.1 = u) then
    d.map (fun p => if p.1 = u then (u, assocSet p.2 tname data) else p)
  else d ++ [(u, [(tname, data)])]

/-- The dict-building loop of `DatabaseExporter.export_to_csv`: for each
table in order, for each fetched row in order, store its data triple
under `(url, table)`. -/
def buildDict (tables : List (String × TrafficTable)) : ExportDict :=
  tables.foldl
    (fun d (tt : String × TrafficTable) =>
      tt.2.foldl (fun d' r => dictInsert d' r.url tt.1 (rowData r)) d)
    []

/-- The four fixed source tables, in the order the exporter reads them. -/
def tableNames : List String := ["zakupka", "satom", "tomasBy", "tomasKz"]

/-- One reformatted output row: the URL, then for each of the four tables
its stored triple, or `("0","0","0")` when the sub-dict has no entry for
that table. -/
def reformatRow (u : String) (m : SubDict) : String × List (Option String) :=
  (u, tableNames.flatMap (fun tn =>
    match m.find? (fun q => q.1 = tn) with
    | some q => q.2
    | none => [some "0", some "0", some "0"]))

/-- The header row of the exported CSV. -/
def exportHeader : List String :=
  "URL" :: tableNames.flatMap (fun tn =>
    [tn ++ "_Google", tn ++ "_Yandex", tn ++ "_SeansAll"])

/-- `DatabaseExporter.export_to_csv` (the data produced, header and rows):
read the four tables, build the per-URL dict, and reformat one wide row
per URL in dict (= first appearance) order. -/
def exportJoined (zakupka satom tomasBy tomasKz : TrafficTable) :
    List String × List (String × List (Option String)) :=
  let d := buildDict (tableNames.zip [zakupka, satom, tomasBy, tomasKz])
  (exportHeader, d.map (fun p => reformatRow p.1 p.2))

/-- All URLs of a list of named tables, in reading order. -/
def allUrls (ts : List (String × TrafficTable)) : List String :=
  ts.flatMap (fun tt => tt.2.map (fun r => r.url))

/-- The row of a table holding a URL (first match; under the `PRIMARY
KEY` invariant there is at most one). -/
def tableLookup (t : TrafficTable) (u : String) : Option TrafficRow :=
  t.find? (fun r => r.url = u)

/-- The three cells one table contributes to the output row of a URL:
its stored triple, or `("0","0","0")` when it has no row for that URL. -/
def contribution (t : TrafficTable) (u : String) : List (Option String) :=
  match tableLookup t u with
  | some r => rowData r
  | none => [some "0", some "0", some "0"]

/-- The sub-dict a URL ends up with: one `(table, triple)` entry per
source table holding the URL, in table order. -/
def tablesWith (ts : List (String × TrafficTable)) (u : String) : SubDict :=
  ts.filterMap (fun tt => (tableLookup tt.2 u).map (fun r => (tt.1, rowData r)))

def dictKeys (d : ExportDict) : List String :=
  d.map Prod.fst

def dictFind (d : ExportDict) (u : String) : Option SubDict :=
  (d.find? (fun p => p.1 = u)).map Prod.snd

def subFind (m : SubDict) (k : String) : Option (List (Option String)) :=
  (m.find? (fun q => q.1 = k)).map Prod.snd

/-- Processing one table in the dict-building loop. -/
def insTable (d : ExportDict) (tn : String) (t : TrafficTable) : ExportDict :=
  t.foldl (fun d' r => dictInsert d' r.url tn (rowData r)) d

/-- Processing a list of named tables from an accumulator dict. -/
def foldTables (d : ExportDict) (ts : List (String × TrafficTable)) : ExportDict :=
  ts.foldl (fun d' tt => insTable d' tt.1 tt.2) d

end Traffic

namespace Cleaner

/-- Number of rows of the store whose phrase equals `p` exactly
(the value of `SELECT COUNT(*) FROM search_phrases WHERE phrase = ?`). -/
def phraseCount (s : PhraseStore) (p : String) : Nat :=
  s.rows.countP (fun r => r.phrase = p)

/-- The per-word deletion predicate of `remove_phrases`: the phrase
matches `LIKE '%' || word.strip() || '%'`. -/
def matchesNegWord (w phrase : String) : Bool :=
  likeContains (pyStrip w) phrase

/-- `w` is a prefix of `s` (character equality). -/
def isPrefixCh : List Char → List Char → Bool
  | [], _ => true
  | _ :: _, [] => false
  | a :: w, b :: s => a = b && isPrefixCh w s

/-- `w` occurs as a contiguous sublist of `s` (one candidate start
position per suffix). -/
def listInfix (w : List Char) : List Char → Bool
  | [] => w.isEmpty
  | d :: s' => isPrefixCh w (d :: s') || listInfix w s'

/-- Case-sensitive substring containment, as the spec's words describe
the deletion filter. -/
def containsSubstr (w s : String) : Bool :=
  listInfix w.toList s.toList

/-- ASCII-case-insensitive substring containment (both sides folded with
the ASCII-only `Char.toLower`, the folding SQLite's default `LIKE`
applies). -/
def containsSubstrCI (w s : String) : Bool :=
  listInfix (w.toList.map Char.toLower) (s.toList.map Char.toLower)

theorem insert_phrases_cons (s : PhraseStore) (d q : String) (l : List String) :
    insert_phrases s d (q :: l) =
      insert_phrases
        (if s.rows.countP (fun r => r.phrase = q) = 0 then
          { rows := s.rows ++ [⟨s.seq + 1, q, d⟩], seq := s.seq + 1 }
        else s) d l := rfl

theorem phraseCount_append_one (s : PhraseStore) (d q p : String) :
    phraseCount (⟨s.rows ++ [⟨s.seq + 1, q, d⟩], s.seq + 1⟩ : PhraseStore) p =
      phraseCount s p + (if q = p then 1 else 0) := by
  simp only [phraseCount, List.countP_append, List.countP_cons, List.countP_nil]
  by_cases h : q = p <;> simp [h]

theorem phraseCount_insert_phrases (s : PhraseStore) (d : String) (l : List String)
    (p : String) :
    phraseCount (insert_phrases s d l) p =
      if phraseCount s p = 0 then (if p ∈ l then 1 else 0) else phraseCount s p := by
  induction l generalizing s with
  | nil =>
    simp only [insert_phrases, List.foldl_nil, List.not_mem_nil, if_false]
    split <;> omega
  | cons q l ih =>
    rw [insert_phrases_cons, ih]
    by_cases hq : s.rows.countP (fun r => r.phrase = q) = 0
    · rw [if_pos hq, phraseCount_append_one]
      by_cases hpq : p = q
      · subst hpq
        have h0 : phraseCount s p = 0 := hq
        simp [h0, List.mem_cons]
      · have h1 : ¬ (q = p) := fun h => hpq h.symm
        simp only [h1, if_false, Nat.add_zero]
        simp [List.mem_cons, hpq]
    · rw [if_neg hq]
      by_cases hpq : p = q
      · subst hpq
        have h1 : ¬ (phraseCount s p = 0) := hq
        simp [h1]
      · simp [List.mem_cons, hpq]

/-- C2: `insert` is idempotent on exact phrase text: inserting a phrase that
already exists (exact string match) stores nothing new, and inserting the
same absent phrase twice — across two calls or within one call — leaves
exactly one row with that phrase text. -/
theorem insert_phrases_idempotent (s : PhraseStore) (d d' : String) (p : String)
    (h : phraseCount s p = 0) :
    phraseCount (insert_phrases (insert_phrases s d [p]) d' [p]) p = 1 ∧
    phraseCount (insert_phrases s d [p, p]) p = 1 ∧
    ∀ (t : PhraseStore) (e : String), phraseCount t p ≠ 0 → insert_phrases t e [p] = t := by
  refine ⟨?_, ?_, ?_⟩
  · rw [phraseCount_insert_phrases, phraseCount_insert_phrases]
    simp [h]
  · rw [phraseCount_insert_phrases]
    simp [h]
  · intro t e ht
    have ht' : ¬ (t.rows.countP (fun r => r.phrase = p) = 0) := ht
    simp only [insert_phrases, List.foldl_cons, List.foldl_nil, if_neg ht']

theorem insert_phrases_idempotent_witness :
    phraseCount ⟨[], 0⟩ "foo" = 0 ∧
    (phraseCount (insert_phrases (insert_phrases ⟨[], 0⟩ "01-01-2024" ["foo"])
        "02-01-2024" ["foo"]) "foo" = 1 ∧
      phraseCount (insert_phrases ⟨[], 0⟩ "01-01-2024" ["foo", "foo"]) "foo" = 1 ∧
      ∀ (t : PhraseStore) (e : String), phraseCount t "foo" ≠ 0 →
        insert_phrases t e ["foo"] = t) :=
  ⟨by decide, insert_phrases_idempotent ⟨[], 0⟩ "01-01-2024" "02-01-2024" "foo" (by decide)⟩

/-- C9: phrase-uniqueness is an invariant of the store: if no two rows have
equal phrase text before a call, then after any `insert` call — for any
input list, including one with internal duplicates — no two rows have
equal phrase text, because each per-row existence check sees the rows
inserted earlier in the same call. -/
theorem insert_phrases_preserves_uniqueness (s : PhraseStore) (d : String)
    (l : List String) (h : (s.rows.map (fun r => r.phrase)).Nodup) :
    ((insert_phrases s d l).rows.map (fun r => r.phrase)).Nodup := by
  induction l generalizing s with
  | nil => simpa [insert_phrases] using h
  | cons q l ih =>
    rw [insert_phrases_cons]
    by_cases hq : s.rows.countP (fun r => r.phrase = q) = 0
    · rw [if_pos hq]
      apply ih
      have hnot : q ∉ s.rows.map (fun r => r.phrase) := by
        intro hmem
        rcases List.mem_map.mp hmem with ⟨r, hr, hrq⟩
        have := List.countP_eq_zero.mp hq r hr
        simp [hrq] at this
      show ((s.rows ++ [(⟨s.seq + 1, q, d⟩ : PhraseRow)]).map (fun r => r.phrase)).Nodup
      rw [List.map_append, List.nodup_append]
      refine ⟨h, by simp, ?_⟩
      intro a ha hb
      simp only [List.map_cons, List.map_nil, List.mem_singleton] at hb
      exact hnot (hb ▸ ha)
    · rw [if_neg hq]
      exact ih s h

/-- C5 counterexample: on the spec's own test input, `clean_text` returns
`"This is a test "` — the space preceding the stripped `"!"` survives —
which differs from the claimed `"This is a test"`. -/
theorem clean_text_example_counterexample :
    clean_text "  This is a  test   !  " = "This is a test " ∧
    "This is a test " ≠ "This is a test" := by
  constructor
  · decide
  · decide

/-- C5 (amended): `clean_text` collapses whitespace runs to a single space
and trims the ends first, then strips every character that is not in the
Unicode word class or whitespace; on the spec's test input it returns
exactly `"This is a test "`, with a trailing space left over from the
removed `"!"`.  The word class is Unicode-aware: Cyrillic letters are
kept while the punctuation between them is stripped.  Every character of
any output is a word character or whitespace. -/
theorem clean_text_spec :
    clean_text "  This is a  test   !  " = "This is a test " ∧
    clean_text "  привет,  мир!  " = "привет мир" ∧
    ∀ (t : String), ∀ c ∈ (clean_text t).toList, (isWordCh c || isSpaceCh c) = true := by
  refine ⟨by decide, by decide, ?_⟩
  intro t c hc
  have : c ∈ (pyStripL (collapseWs t.toList)).filter (fun c => isWordCh c || isSpaceCh c) := hc
  exact List.of_mem_filter (p := fun c => isWordCh c || isSpaceCh c) this

theorem clean_text_spec_witness :
    ('п' ∈ (clean_text "  привет,  мир!  ").toList) ∧
    (isWordCh 'п' || isSpaceCh 'п') = true :=
  ⟨by decide, clean_text_spec.2.2 "  привет,  мир!  " 'п' (by decide)⟩

/-- C8 (code defect, evaluated at the failing input): when the failure
occurs before `db_manager` is bound — e.g. `load_config` raises — the
`finally` block's `db_manager.close_connection()` raises `NameError`, and
the process exits with code 1, not 0; on every path on which `db_manager`
was constructed the exit code is 0. -/
theorem main_exit_nonzero_before_db_construction :
    mainExitCode MainOutcome.configLoadFail = 1 ∧
    mainExitCode MainOutcome.logSetupFail = 1 ∧
    mainExitCode MainOutcome.dbConstructFail = 1 ∧
    mainExitCode MainOutcome.loopFail = 0 ∧
    mainExitCode MainOutcome.normalExit = 0 := by
  decide

theorem insert_phrases_preserves_uniqueness_witness :
    (((⟨[⟨1, "a", "01-01-2024"⟩], 1⟩ : PhraseStore).rows.map
        (fun r => r.phrase)).Nodup) ∧
    ((insert_phrases ⟨[⟨1, "a", "01-01-2024"⟩], 1⟩ "02-01-2024"
        ["b", "b", "a"]).rows.map (fun r => r.phrase)).Nodup :=
  ⟨by decide,
    insert_phrases_preserves_uniqueness ⟨[⟨1, "a", "01-01-2024"⟩], 1⟩ "02-01-2024"
      ["b", "b", "a"] (by decide)⟩

theorem remove_phrases_cons (s : PhraseStore) (w : String) (ws : List String) :
    remove_phrases s (w :: ws) =
      remove_phrases
        ⟨s.rows.filter (fun r => !(likeContains (pyStrip w) r.phrase)), s.seq⟩ ws := rfl

theorem remove_phrases_eq (s : PhraseStore) (ws : List String) :
    remove_phrases s ws =
      ⟨s.rows.filter (fun r => ws.all (fun w => !(matchesNegWord w r.phrase))), s.seq⟩ := by
  induction ws generalizing s with
  | nil =>
    simp [remove_phrases]
  | cons w ws ih =>
    rw [remove_phrases_cons, ih]
    have hrows :
        (s.rows.filter (fun r => !(likeContains (pyStrip w) r.phrase))).filter
            (fun r => ws.all (fun v => !(matchesNegWord v r.phrase))) =
          s.rows.filter
            (fun r => (w :: ws).all (fun v => !(matchesNegWord v r.phrase))) := by
      rw [List.filter_filter]
      apply List.filter_congr
      intro r _
      simp [matchesNegWord, List.all_cons, Bool.and_comm]
    rw [hrows]

theorem all_of_perm {l l' : List String} (h : l.Perm l') (f : String → Bool) :
    l.all f = l'.all f := by
  cases hall : l'.all f
  · cases hall2 : l.all f
    · rfl
    · exfalso
      rcases List.all_eq_false.mp hall with ⟨x, hx, hfx⟩
      have := List.all_eq_true.mp hall2 x (h.mem_iff.mpr hx)
      simp [this] at hfx
  · apply List.all_eq_true.mpr
    intro x hx
    exact List.all_eq_true.mp hall x (h.mem_iff.mp hx)

/-- C7: `remove` over a word list is order-independent in its net effect:
the rows that remain are exactly those whose phrase matches none of the
words (deletion is the set union of the per-word matches), the sequence
counter is untouched, and permuting the word list yields the same final
table. -/
theorem remove_phrases_order_independent (s : PhraseStore) (ws ws' : List String)
    (h : ws.Perm ws') :
    (remove_phrases s ws).rows =
      s.rows.filter (fun r => ws.all (fun w => !(matchesNegWord w r.phrase))) ∧
    (remove_phrases s ws).seq = s.seq ∧
    remove_phrases s ws = remove_phrases s ws' := by
  refine ⟨?_, ?_, ?_⟩
  · rw [remove_phrases_eq]
  · rw [remove_phrases_eq]
  · rw [remove_phrases_eq, remove_phrases_eq]
    have hrows :
        s.rows.filter (fun r => ws.all (fun w => !(matchesNegWord w r.phrase))) =
          s.rows.filter (fun r => ws'.all (fun w => !(matchesNegWord w r.phrase))) := by
      apply List.filter_congr
      intro r _
      rw [all_of_perm h]
    rw [hrows]

theorem remove_phrases_order_independent_witness :
    (List.Perm ["x", "y"] ["y", "x"]) ∧
    ((remove_phrases ⟨[⟨1, "axb", "01-01-2024"⟩, ⟨2, "c", "01-01-2024"⟩], 2⟩
        ["x", "y"]).rows =
      ([⟨1, "axb", "01-01-2024"⟩, ⟨2, "c", "01-01-2024"⟩] : List PhraseRow).filter
        (fun r => (["x", "y"] : List String).all
          (fun w => !(matchesNegWord w r.phrase))) ∧
    (remove_phrases ⟨[⟨1, "axb", "01-01-2024"⟩, ⟨2, "c", "01-01-2024"⟩], 2⟩
        ["x", "y"]).seq = 2 ∧
    remove_phrases ⟨[⟨1, "axb", "01-01-2024"⟩, ⟨2, "c", "01-01-2024"⟩], 2⟩
        ["x", "y"] =
      remove_phrases ⟨[⟨1, "axb", "01-01-2024"⟩, ⟨2, "c", "01-01-2024"⟩], 2⟩
        ["y", "x"]) :=
  ⟨by decide,
    remove_phrases_order_independent
      ⟨[⟨1, "axb", "01-01-2024"⟩, ⟨2, "c", "01-01-2024"⟩], 2⟩
      ["x", "y"] ["y", "x"] (by decide)⟩

theorem likeMatch_percent_any (s : List Char) : likeMatch ['%'] s = true := by
  induction s with
  | nil => simp [likeMatch]
  | cons d s' ih => simp [likeMatch, ih]

theorem likeMatch_trailing_percent (w : List Char)
    (hw : ∀ c ∈ w, c ≠ '%' ∧ c ≠ '_') :
    ∀ s : List Char,
      likeMatch (w ++ ['%']) s = isPrefixCh (w.map Char.toLower) (s.map Char.toLower) := by
  induction w with
  | nil =>
    intro s
    simp [likeMatch_percent_any, isPrefixCh]
  | cons c w ih =>
    intro s
    have hc := hw c (List.mem_cons_self c w)
    have hw' : ∀ a ∈ w, a ≠ '%' ∧ a ≠ '_' := fun a ha => hw a (List.mem_cons_of_mem c ha)
    cases s with
    | nil => simp [likeMatch, hc.1, isPrefixCh]
    | cons d s' => simp [likeMatch, hc.1, hc.2, isPrefixCh, ih hw' s']

theorem likeMatch_wrapped_percents (w : List Char)
    (hw : ∀ c ∈ w, c ≠ '%' ∧ c ≠ '_') :
    ∀ s : List Char,
      likeMatch ('%' :: (w ++ ['%'])) s = listInfix (w.map Char.toLower) (s.map Char.toLower) := by
  intro s
  induction s with
  | nil =>
    rw [show likeMatch ('%' :: (w ++ ['%'])) [] = likeMatch (w ++ ['%']) [] by
      simp [likeMatch]]
    rw [likeMatch_trailing_percent w hw []]
    cases hwm : w.map Char.toLower <;> simp [isPrefixCh, listInfix]
  | cons d s' ih =>
    rw [show likeMatch ('%' :: (w ++ ['%'])) (d :: s') =
        (likeMatch (w ++ ['%']) (d :: s') || likeMatch ('%' :: (w ++ ['%'])) s') by
      simp [likeMatch]]
    rw [likeMatch_trailing_percent w hw (d :: s'), ih]
    simp [listInfix]

theorem likeContains_eq_ci (w ph : String)
    (hw : ∀ c ∈ w.toList, c ≠ '%' ∧ c ≠ '_') :
    likeContains w ph = containsSubstrCI w ph := by
  rw [likeContains, containsSubstrCI, likeMatch_wrapped_percents w.toList hw ph.toList]

/-- C3 counterexample: `remove(["foo"])` deletes the row whose phrase is
`"Foo"`, although `"Foo"` does not contain `"foo"` as a substring under
case-sensitive matching — SQLite's default `LIKE` is ASCII
case-insensitive, so the claim's "case-sensitive" is wrong. -/
theorem remove_phrases_case_sensitivity_counterexample :
    (remove_phrases ⟨[⟨1, "Foo", "01-01-2024"⟩], 1⟩ ["foo"]).rows = [] ∧
    containsSubstr "foo" "Foo" = false := by
  constructor
  · simp [remove_phrases, likeContains, likeMatch, pyStrip, pyStripL, isSpaceCh]
  · decide

/-- C3 (amended): for a whitespace-trimmed word containing no `LIKE`
wildcard (`%`/`_`), `remove([w])` deletes exactly the rows whose phrase
contains the trimmed `w` as a substring under ASCII-case-INSENSITIVE
matching (SQLite's default `LIKE`), and deletes no other row; the
sequence counter is untouched. -/
theorem remove_phrases_deletes_ci_substring (s : PhraseStore) (w : String)
    (h : ∀ c ∈ (pyStrip w).toList, c ≠ '%' ∧ c ≠ '_') :
    (remove_phrases s [w]).rows =
      s.rows.filter (fun r => !(containsSubstrCI (pyStrip w) r.phrase)) ∧
    (remove_phrases s [w]).seq = s.seq := by
  constructor
  · rw [remove_phrases_eq]
    show s.rows.filter _ = _
    apply List.filter_congr
    intro r _
    simp only [List.all_cons, List.all_nil, Bool.and_true, matchesNegWord]
    rw [likeContains_eq_ci (pyStrip w) r.phrase h]
  · rw [remove_phrases_eq]

theorem remove_phrases_deletes_ci_substring_witness :
    (∀ c ∈ (pyStrip " foo ").toList, c ≠ '%' ∧ c ≠ '_') ∧
    ((remove_phrases ⟨[⟨1, "xFOOy", "01-01-2024"⟩, ⟨2, "bar", "01-01-2024"⟩], 2⟩
        [" foo "]).rows =
      ([⟨1, "xFOOy", "01-01-2024"⟩, ⟨2, "bar", "01-01-2024"⟩] : List PhraseRow).filter
        (fun r => !(containsSubstrCI (pyStrip " foo ") r.phrase)) ∧
    (remove_phrases ⟨[⟨1, "xFOOy", "01-01-2024"⟩, ⟨2, "bar", "01-01-2024"⟩], 2⟩
        [" foo "]).seq = 2) :=
  ⟨by decide,
    remove_phrases_deletes_ci_substring
      ⟨[⟨1, "xFOOy", "01-01-2024"⟩, ⟨2, "bar", "01-01-2024"⟩], 2⟩ " foo " (by decide)⟩

theorem lex_cons_cons_iff (a b : Char) (as bs : List Char) :
    List.Lex (· < ·) (a :: as) (b :: bs) ↔ a < b ∨ (a = b ∧ List.Lex (· < ·) as bs) := by
  constructor
  · intro h
    cases h with
    | cons h => exact Or.inr ⟨rfl, h⟩
    | rel h => exact Or.inl h
  · rintro (h | ⟨rfl, h⟩)
    · exact List.Lex.rel h
    · exact List.Lex.cons h

/-- The hand-rolled byte comparison agrees with lexicographic order on
character lists (and hence, through `String.le_iff_toList_le`, with
lexicographic order on strings). -/
theorem sqliteTextLe_iff : ∀ x y : List Char, sqliteTextLe x y = true ↔ x ≤ y := by
  intro x
  induction x with
  | nil =>
    intro y
    simp [sqliteTextLe, List.nil_le]
  | cons a as ih =>
    intro y
    cases y with
    | nil =>
      simp only [sqliteTextLe, Bool.false_eq_true, false_iff]
      intro hle
      exact absurd (lt_of_lt_of_le (List.nil_lt_cons a as) hle) (lt_irrefl _)
    | cons b bs =>
      simp only [sqliteTextLe, Bool.or_eq_true, Bool.and_eq_true, decide_eq_true_eq]
      have hnot : (a :: as : List Char) ≤ (b :: bs) ↔
          ¬ List.Lex (· < ·) (b :: bs) (a :: as) := by
        rw [← not_lt]
        exact Iff.rfl
      rw [hnot, lex_cons_cons_iff, not_or, not_and]
      constructor
      · rintro (hab | ⟨hab, h⟩)
        · have hab' : a < b := Char.lt_def.mpr hab
          refine ⟨lt_asymm hab', fun hba _ => ?_⟩
          subst hba
          exact lt_irrefl _ hab'
        · have heq : a = b := Char.ext_iff.mpr hab
          subst heq
          exact ⟨lt_irrefl a, fun _ => not_lt.mpr ((ih bs).mp h)⟩
      · rintro ⟨hba, hcond⟩
        rcases lt_trichotomy a b with hab | heq | hab
        · exact Or.inl (Char.lt_def.mp hab)
        · subst heq
          refine Or.inr ⟨rfl, (ih bs).mpr ?_⟩
          rw [← not_lt]
          exact hcond rfl
        · exact absurd hab hba

/-- C4 counterexample: with rows dated `"01-12-2024"` and `"05-01-2024"`,
the range `("01-01-2024", "31-01-2024")` INCLUDES `"01-12-2024"`
(lexically `"01-01-2024" ≤ "01-12-2024" ≤ "31-01-2024"`), contrary to the
claim that it is excluded. -/
theorem export_range_example_counterexample :
    "01-12-2024" ∈ (export_to_csv
      ⟨[⟨1, "p", "01-12-2024"⟩, ⟨2, "q", "05-01-2024"⟩], 2⟩
      "01-01-2024" "31-01-2024").map (fun r => r.date) := by
  decide

/-- C4 (amended): `exportRange(startDate, endDate)` returns exactly the
stored rows whose date string is lexically between the bounds, inclusive —
not chronologically; with rows dated `"01-12-2024"` and `"05-01-2024"`,
the range `("01-01-2024", "31-01-2024")` includes `"01-12-2024"` even
though it is chronologically later than the end bound. -/
theorem export_to_csv_lexical_range (s : PhraseStore) (a b : String) :
    export_to_csv s a b =
      s.rows.filter (fun r => decide (a ≤ r.date ∧ r.date ≤ b)) ∧
    "01-12-2024" ∈ (export_to_csv
      ⟨[⟨1, "p", "01-12-2024"⟩, ⟨2, "q", "05-01-2024"⟩], 2⟩
      "01-01-2024" "31-01-2024").map (fun r => r.date) := by
  constructor
  · apply List.filter_congr
    intro r _
    rw [Bool.eq_iff_iff]
    simp only [Bool.and_eq_true, decide_eq_true_eq]
    rw [sqliteTextLe_iff, sqliteTextLe_iff, ← String.le_iff_toList_le,
      ← String.le_iff_toList_le]
  · decide

end Cleaner

namespace Traffic

theorem pass1_nil (t : TrafficTable) : pass1 t [] = Except.ok t := rfl

theorem pass1_cons (t : TrafficTable) (u : String) (rest : List String) :
    pass1 t (u :: rest) =
      if (t.map (fun tr => tr.url)).contains u then
        Except.error "UNIQUE constraint failed"
      else pass1 (t ++ [urlOnlyRow u]) rest := by
  by_cases h : (t.map (fun tr => tr.url)).contains u
  · unfold pass1
    rw [List.foldlM_cons, if_pos h, if_pos h]
    rfl
  · unfold pass1
    rw [List.foldlM_cons, if_neg h, if_neg h]
    rfl

theorem pass1_ok_eq (toAdd : List String) :
    ∀ (t t' : TrafficTable), pass1 t toAdd = Except.ok t' →
      t' = t ++ toAdd.map urlOnlyRow := by
  induction toAdd with
  | nil =>
    intro t t' h
    rw [pass1_nil] at h
    injection h with h
    simp [h.symm]
  | cons u rest ih =>
    intro t t' h
    rw [pass1_cons] at h
    by_cases hc : (t.map (fun tr => tr.url)).contains u
    · rw [if_pos hc] at h
      exact absurd h (by simp)
    · rw [if_neg hc] at h
      have := ih _ _ h
      simpa using this

theorem find?_map_urlOnly (toAdd : List String) (u : String) (h : u ∈ toAdd) :
    (toAdd.map urlOnlyRow).find? (fun tr => tr.url = u) = some (urlOnlyRow u) := by
  induction toAdd with
  | nil => cases h
  | cons v rest ih =>
    rcases List.mem_cons.mp h with rfl | h'
    · simp [urlOnlyRow]
    · by_cases hv : v = u
      · subst hv
        simp [urlOnlyRow]
      · simp only [List.map_cons]
        rw [List.find?_cons_of_neg]
        · exact ih h'
        · simp [urlOnlyRow, hv]

theorem find?_updateRow (t : TrafficTable) (r : InputRow) (u : String)
    (h : ¬ r.url = u) :
    (updateRow t r).find? (fun tr => tr.url = u) = t.find? (fun tr => tr.url = u) := by
  induction t with
  | nil => rfl
  | cons tr rest ih =>
    simp only [updateRow, List.map_cons]
    by_cases htr : tr.url = r.url
    · rw [if_pos htr]
      rw [List.find?_cons_of_neg, List.find?_cons_of_neg]
      · exact ih
      · simp
        intro hu
        exact h (htr ▸ hu)
      · simp
        intro hu
        exact h (htr ▸ hu)
    · rw [if_neg htr]
      by_cases hu : tr.url = u
      · rw [List.find?_cons_of_pos, List.find?_cons_of_pos] <;> simp [hu]
      · rw [List.find?_cons_of_neg, List.find?_cons_of_neg]
        · exact ih
        · simp [hu]
        · simp [hu]

theorem pass2_find?_not_mem (e : List String) (df : List InputRow) (u : String)
    (hu : e.contains u = false) :
    ∀ t : TrafficTable,
      (pass2 e t df).find? (fun tr => tr.url = u) = t.find? (fun tr => tr.url = u) := by
  induction df with
  | nil => intro t; rfl
  | cons r rest ih =>
    intro t
    show (pass2 e (if e.contains r.url then updateRow t r else t) rest).find? _ = _
    by_cases hr : e.contains r.url
    · rw [if_pos hr, ih]
      apply find?_updateRow
      intro hru
      rw [hru] at hr
      rw [hr] at hu
      cases hu
    · rw [if_neg hr]
      exact ih t

/-- C1: `update_database` performs two passes — pass 1 inserts a URL-only
row for each input URL not already in the table, pass 2 updates the three
value columns only for URLs present before the call — so a URL newly
inserted in pass 1 ends the call with Google/Yandex/SeansAll all NULL,
even when its input row carries values for them. -/
theorem update_database_new_url_left_null (t : TrafficTable) (df : List InputRow)
    (t' : TrafficTable) (r : InputRow)
    (hok : update_database t df = Except.ok t')
    (hmem : r ∈ df)
    (hnew : (t.map (fun tr => tr.url)).contains r.url = false) :
    t'.find? (fun tr => tr.url = r.url) = some (urlOnlyRow r.url) := by
  unfold update_database at hok
  cases hp : pass1 t (urlsToAdd (t.map (fun tr => tr.url)) df) with
  | error e =>
    rw [hp] at hok
    exact absurd hok (by simp [Except.map])
  | ok t1 =>
    rw [hp] at hok
    have ht' : t' = pass2 (t.map (fun tr => tr.url)) t1 df := by
      have : Except.ok (pass2 (t.map (fun tr => tr.url)) t1 df) =
          (Except.ok t' : Except String TrafficTable) := hok
      injection this with h
      exact h.symm
    rw [ht', pass2_find?_not_mem _ _ _ hnew]
    rw [pass1_ok_eq _ _ _ hp]
    rw [List.find?_append]
    have hnotmem : r.url ∉ t.map (fun tr => tr.url) := by
      intro hm
      have : (t.map (fun tr => tr.url)).contains r.url = true := List.elem_iff.mpr hm
      rw [this] at hnew
      cases hnew
    have hnone : t.find? (fun tr => tr.url = r.url) = none := by
      apply List.find?_eq_none.mpr
      intro x hx
      simp only [decide_eq_true_eq]
      intro hxu
      exact hnotmem (List.mem_map.mpr ⟨x, hx, hxu⟩)
    rw [hnone, Option.none_or]
    apply find?_map_urlOnly
    apply List.mem_map.mpr
    refine ⟨r, ?_, rfl⟩
    apply List.mem_filter.mpr
    exact ⟨hmem, by rw [hnew]; rfl⟩

theorem update_database_new_url_left_null_witness :
    update_database [] [⟨"x", some "1", some "2", some "3"⟩] =
      Except.ok [urlOnlyRow "x"] ∧
    (⟨"x", some "1", some "2", some "3"⟩ : InputRow) ∈
      [(⟨"x", some "1", some "2", some "3"⟩ : InputRow)] ∧
    (([] : TrafficTable).map (fun tr => tr.url)).contains "x" = false ∧
    ([urlOnlyRow "x"] : TrafficTable).find? (fun tr => tr.url = "x") =
      some (urlOnlyRow "x") :=
  ⟨by rfl, by simp, by rfl,
    update_database_new_url_left_null [] [⟨"x", some "1", some "2", some "3"⟩]
      [urlOnlyRow "x"] ⟨"x", some "1", some "2", some "3"⟩
      (by rfl) (by simp) (by rfl)⟩

end Traffic

namespace Traffic

theorem lookupTable_ensureTable (db : Database) (name t : String) (h : ¬ t = name) :
    lookupTable (ensureTable db name) t = lookupTable db t := by
  unfold ensureTable
  split
  · rfl
  · unfold lookupTable
    rw [List.find?_append]
    have hsing : (([(name, [])] : Database).find? (fun p => p.1 = t)) = none := by
      rw [List.find?_cons_of_neg]
      · rfl
      · simp
        intro hne
        exact h hne.symm
    rw [hsing, Option.or_none]

theorem lookupTable_setTable (db : Database) (name : String) (tt : TrafficTable)
    (t : String) (h : ¬ t = name) :
    lookupTable (setTable db name tt) t = lookupTable db t := by
  induction db with
  | nil => rfl
  | cons p rest ih =>
    simp only [setTable, List.map_cons]
    by_cases hp : p.1 = name
    · rw [if_pos hp]
      unfold lookupTable
      rw [List.find?_cons_of_neg, List.find?_cons_of_neg]
      · exact ih
      · simp
        intro hpt
        exact h (hpt ▸ hp)
      · simp
        intro hnt
        exact h hnt.symm
    · rw [if_neg hp]
      unfold lookupTable
      by_cases hpt : p.1 = t
      · rw [List.find?_cons_of_pos, List.find?_cons_of_pos] <;> simp [hpt]
      · rw [List.find?_cons_of_neg, List.find?_cons_of_neg]
        · exact ih
        · simp [hpt]
        · simp [hpt]

/-- C10: `update_database` writes only to the single table named after the
input CSV's base name — for every pre-existing database state, every
other table (the `indexes` table and the other source tables included) is
unchanged by the call, whether the call succeeds or aborts. -/
theorem update_database_frame (db : Database) (name : String) (df : List InputRow)
    (t : String) (h : t ≠ name) :
    lookupTable (applyUpdate db name df) t = lookupTable db t := by
  unfold applyUpdate
  cases hu : updateDatabaseDB db name df with
  | error e => rfl
  | ok db' =>
    unfold updateDatabaseDB at hu
    cases hp : update_database ((lookupTable (ensureTable db name) name).getD []) df with
    | error e =>
      rw [hp] at hu
      exact absurd hu (by simp [Except.map])
    | ok t' =>
      rw [hp] at hu
      have hdb' : db' = setTable (ensureTable db name) name t' := by
        have : Except.ok (setTable (ensureTable db name) name t') =
            (Except.ok db' : Except String Database) := hu
        injection this with h2
        exact h2.symm
      rw [hdb', lookupTable_setTable _ _ _ _ h, lookupTable_ensureTable _ _ _ h]

theorem update_database_frame_witness :
    "satom" ≠ "zakupka" ∧
    lookupTable
        (applyUpdate [("satom", [urlOnlyRow "y"])] "zakupka"
          [⟨"x", some "1", some "2", some "3"⟩]) "satom" =
      lookupTable [("satom", [urlOnlyRow "y"])] "satom" :=
  ⟨by decide,
    update_database_frame [("satom", [urlOnlyRow "y"])] "zakupka"
      [⟨"x", some "1", some "2", some "3"⟩] "satom" (by decide)⟩

end Traffic

namespace Traffic

theorem find?_set_pairs {β : Type} (d : List (String × β)) (u : String) (f : β → β) :
    (d.map (fun p => if p.1 = u then (u, f p.2) else p)).find? (fun p => p.1 = u) =
      (d.find? (fun p => p.1 = u)).map (fun p => (u, f p.2)) := by
  induction d with
  | nil => rfl
  | cons p rest ih =>
    simp only [List.map_cons]
    by_cases hp : p.1 = u
    · rw [if_pos hp]
      rw [List.find?_cons_of_pos, List.find?_cons_of_pos] <;> simp [hp]
    · rw [if_neg hp]
      rw [List.find?_cons_of_neg, List.find?_cons_of_neg]
      · exact ih
      · simp [hp]
      · simp [hp]

theorem find?_set_pairs_other {β : Type} (d : List (String × β)) (u u' : String)
    (h : ¬ u' = u) (f : β → β) :
    (d.map (fun p => if p.1 = u then (u, f p.2) else p)).find? (fun p => p.1 = u') =
      d.find? (fun p => p.1 = u') := by
  induction d with
  | nil => rfl
  | cons p rest ih =>
    simp only [List.map_cons]
    by_cases hp : p.1 = u
    · rw [if_pos hp]
      rw [List.find?_cons_of_neg, List.find?_cons_of_neg]
      · exact ih
      · simp
        intro hpu
        exact h (hpu ▸ hp)
      · simp
        intro hne
        exact h hne.symm
    · rw [if_neg hp]
      by_cases hpu : p.1 = u'
      · rw [List.find?_cons_of_pos, List.find?_cons_of_pos] <;> simp [hpu]
      · rw [List.find?_cons_of_neg, List.find?_cons_of_neg]
        · exact ih
        · simp [hpu]
        · simp [hpu]

theorem keys_set_pairs {β : Type} (d : List (String × β)) (u : String) (f : β → β) :
    (d.map (fun p => if p.1 = u then (u, f p.2) else p)).map Prod.fst =
      d.map Prod.fst := by
  induction d with
  | nil => rfl
  | cons p rest ih =>
    simp only [List.map_cons]
    by_cases hp : p.1 = u
    · rw [if_pos hp]
      simp only [ih]
      rw [hp]
    · rw [if_neg hp]
      simp only [ih]

theorem any_eq_false_of_find?_none {β : Type} (d : List (String × β)) (u : String)
    (h : d.find? (fun p => p.1 = u) = none) :
    d.any (fun p => p.1 = u) = false := by
  cases hany : d.any (fun p => p.1 = u)
  · rfl
  · exfalso
    rcases List.any_eq_true.mp hany with ⟨x, hx, hpx⟩
    exact absurd hpx (List.find?_eq_none.mp h x hx)

theorem find?_none_of_any_eq_false {β : Type} (d : List (String × β)) (u : String)
    (h : d.any (fun p => p.1 = u) = false) :
    d.find? (fun p => p.1 = u) = none := by
  apply List.find?_eq_none.mpr
  intro x hx hpx
  rcases List.any_eq_false.mp h x hx with h2
  exact h2 hpx

end Traffic

namespace Traffic

theorem dictKeys_dictInsert (d : ExportDict) (u tn : String) (v : List (Option String)) :
    dictKeys (dictInsert d u tn v) =
      if d.any (fun p => p.1 = u) then dictKeys d else dictKeys d ++ [u] := by
  unfold dictInsert dictKeys
  split
  · exact keys_set_pairs d u (fun m => assocSet m tn v)
  · simp

theorem dictFind_dictInsert_self (d : ExportDict) (u tn : String)
    (v : List (Option String)) :
    dictFind (dictInsert d u tn v) u =
      some (match dictFind d u with
            | some m => assocSet m tn v
            | none => [(tn, v)]) := by
  unfold dictInsert
  by_cases hany : d.any (fun p => p.1 = u)
  · rw [if_pos hany]
    unfold dictFind
    rw [find?_set_pairs d u (fun m => assocSet m tn v)]
    cases hf : d.find? (fun p => p.1 = u) with
    | none =>
      rw [any_eq_false_of_find?_none d u hf] at hany
      cases hany
    | some p => simp
  · rw [if_neg hany]
    unfold dictFind
    rw [List.find?_append]
    rw [find?_none_of_any_eq_false d u (by rwa [Bool.not_eq_true] at hany)]
    simp

theorem dictFind_dictInsert_other (d : ExportDict) (u tn : String)
    (v : List (Option String)) (u' : String) (h : ¬ u' = u) :
    dictFind (dictInsert d u tn v) u' = dictFind d u' := by
  unfold dictInsert
  by_cases hany : d.any (fun p => p.1 = u)
  · rw [if_pos hany]
    unfold dictFind
    rw [find?_set_pairs_other d u u' h (fun m => assocSet m tn v)]
  · rw [if_neg hany]
    unfold dictFind
    rw [List.find?_append]
    have hsing : (([(u, [(tn, v)])] : ExportDict).find? (fun p => p.1 = u')) = none := by
      rw [List.find?_cons_of_neg]
      · rfl
      · simp
        intro hne
        exact h hne.symm
    rw [hsing, Option.or_none]

theorem subFind_assocSet_self (m : SubDict) (k : String) (v : List (Option String)) :
    subFind (assocSet m k v) k = some v := by
  unfold assocSet
  by_cases hany : m.any (fun q => q.1 = k)
  · rw [if_pos hany]
    unfold subFind
    rw [show (m.map (fun q => if q.1 = k then (k, v) else q)) =
        (m.map (fun q => if q.1 = k then (k, (fun _ => v) q.2) else q)) from rfl]
    rw [find?_set_pairs m k (fun _ => v)]
    cases hf : m.find? (fun q => q.1 = k) with
    | none =>
      rw [any_eq_false_of_find?_none m k hf] at hany
      cases hany
    | some q => simp
  · rw [if_neg hany]
    unfold subFind
    rw [List.find?_append]
    rw [find?_none_of_any_eq_false m k (by rwa [Bool.not_eq_true] at hany)]
    simp

theorem subFind_assocSet_other (m : SubDict) (k : String) (v : List (Option String))
    (k' : String) (h : ¬ k' = k) :
    subFind (assocSet m k v) k' = subFind m k' := by
  unfold assocSet
  by_cases hany : m.any (fun q => q.1 = k)
  · rw [if_pos hany]
    unfold subFind
    rw [show (m.map (fun q => if q.1 = k then (k, v) else q)) =
        (m.map (fun q => if q.1 = k then (k, (fun _ => v) q.2) else q)) from rfl]
    rw [find?_set_pairs_other m k k' h (fun _ => v)]
  · rw [if_neg hany]
    unfold subFind
    rw [List.find?_append]
    have hsing : (([(k, v)] : SubDict).find? (fun q => q.1 = k')) = none := by
      rw [List.find?_cons_of_neg]
      · rfl
      · simp
        intro hne
        exact h hne.symm
    rw [hsing, Option.or_none]

theorem assocSet_of_absent (m : SubDict) (k : String) (v : List (Option String))
    (h : subFind m k = none) :
    assocSet m k v = m ++ [(k, v)] := by
  unfold assocSet
  have hf : m.find? (fun q => q.1 = k) = none := by
    unfold subFind at h
    cases hf2 : m.find? (fun q => q.1 = k) with
    | none => rfl
    | some q =>
      rw [hf2] at h
      cases h
  rw [if_neg]
  intro hany
  rw [any_eq_false_of_find?_none m k hf] at hany
  cases hany

end Traffic


namespace Traffic

theorem insTable_cons (d : ExportDict) (tn : String) (r : TrafficRow)
    (rest : TrafficTable) :
    insTable d tn (r :: rest) = insTable (dictInsert d r.url tn (rowData r)) tn rest := rfl

theorem any_keys_of_mem {β : Type} (d : List (String × β)) (u : String)
    (h : d.any (fun p => p.1 = u) = true) : u ∈ d.map Prod.fst := by
  rcases List.any_eq_true.mp h with ⟨p, hp, hpu⟩
  simp only [decide_eq_true_eq] at hpu
  exact List.mem_map.mpr ⟨p, hp, hpu⟩

theorem dictKeys_insTable_mem (tn : String) (t : TrafficTable) :
    ∀ (d : ExportDict) (v : String),
      v ∈ dictKeys (insTable d tn t) ↔ v ∈ dictKeys d ∨ v ∈ t.map (fun r => r.url) := by
  induction t with
  | nil =>
    intro d v
    simp [insTable]
  | cons r rest ih =>
    intro d v
    rw [insTable_cons, ih]
    rw [dictKeys_dictInsert]
    simp only [List.map_cons, List.mem_cons]
    by_cases hany : d.any (fun p => p.1 = r.url)
    · rw [if_pos hany]
      have hm : r.url ∈ dictKeys d := any_keys_of_mem d r.url hany
      constructor
      · rintro (h | h)
        · exact Or.inl h
        · exact Or.inr (Or.inr h)
      · rintro (h | h | h)
        · exact Or.inl h
        · exact Or.inl (h ▸ hm)
        · exact Or.inr h
    · rw [if_neg hany]
      simp only [List.mem_append, List.mem_singleton]
      tauto

theorem dictKeys_insTable_nodup (tn : String) (t : TrafficTable) :
    ∀ d : ExportDict, (dictKeys d).Nodup → (dictKeys (insTable d tn t)).Nodup := by
  induction t with
  | nil =>
    intro d h
    exact h
  | cons r rest ih =>
    intro d h
    rw [insTable_cons]
    apply ih
    rw [dictKeys_dictInsert]
    by_cases hany : d.any (fun p => p.1 = r.url)
    · rw [if_pos hany]
      exact h
    · rw [if_neg hany]
      rw [List.nodup_append]
      refine ⟨h, by simp, ?_⟩
      intro a ha hb
      rw [List.mem_singleton] at hb
      have haK : a ∈ d.map Prod.fst := ha
      rcases List.mem_map.mp haK with ⟨p, hp, hpa⟩
      have hT : d.any (fun q => q.1 = a) = true :=
        List.any_eq_true.mpr ⟨p, hp, by simp [hpa]⟩
      rw [hb] at hT
      rw [hT] at hany
      exact hany rfl

theorem tableLookup_nil (u : String) : tableLookup [] u = none := rfl

theorem insTable_dictFind (tn : String) (t : TrafficTable)
    (ht : (t.map (fun r => r.url)).Nodup) :
    ∀ (d : ExportDict) (u : String),
      dictFind (insTable d tn t) u =
        match tableLookup t u with
        | some r =>
          some (match dictFind d u with
                | some m => assocSet m tn (rowData r)
                | none => [(tn, rowData r)])
        | none => dictFind d u := by
  induction t with
  | nil =>
    intro d u
    simp [insTable, tableLookup_nil]
  | cons r rest ih =>
    have hhead : r.url ∉ rest.map (fun r' => r'.url) := by
      have := ht
      rw [List.map_cons, List.nodup_cons] at this
      exact this.1
    have ht' : (rest.map (fun r' => r'.url)).Nodup := by
      have := ht
      rw [List.map_cons, List.nodup_cons] at this
      exact this.2
    intro d u
    rw [insTable_cons, ih ht']
    by_cases hru : r.url = u
    · subst hru
      have hlook : tableLookup (r :: rest) r.url = some r := by
        unfold tableLookup
        rw [List.find?_cons_of_pos] <;> simp
      have hnone : tableLookup rest r.url = none := by
        unfold tableLookup
        apply List.find?_eq_none.mpr
        intro x hx
        simp only [decide_eq_true_eq]
        intro hxu
        exact hhead (List.mem_map.mpr ⟨x, hx, hxu⟩)
      rw [hnone, hlook, dictFind_dictInsert_self]
    · have hlook : tableLookup (r :: rest) u = tableLookup rest u := by
        unfold tableLookup
        rw [List.find?_cons_of_neg]
        simp [hru]
      rw [dictFind_dictInsert_other d r.url tn (rowData r) u (fun h => hru h.symm), hlook]

end Traffic

namespace Traffic

theorem subFind_dictInsert_none (d : ExportDict) (u tn tn' : String)
    (v : List (Option String)) (h : ¬ tn' = tn)
    (hd : ∀ p ∈ d, subFind p.2 tn' = none) :
    ∀ p' ∈ dictInsert d u tn v, subFind p'.2 tn' = none := by
  intro p' hp'
  unfold dictInsert at hp'
  by_cases hany : d.any (fun p => p.1 = u)
  · rw [if_pos hany] at hp'
    rcases List.mem_map.mp hp' with ⟨p, hp, hpe⟩
    by_cases hpu : p.1 = u
    · rw [if_pos hpu] at hpe
      rw [← hpe]
      show subFind (assocSet p.2 tn v) tn' = none
      rw [subFind_assocSet_other p.2 tn v tn' h]
      exact hd p hp
    · rw [if_neg hpu] at hpe
      rw [← hpe]
      exact hd p hp
  · rw [if_neg hany] at hp'
    rcases List.mem_append.mp hp' with hmem | hmem
    · exact hd p' hmem
    · rw [List.mem_singleton] at hmem
      rw [hmem]
      show subFind [(tn, v)] tn' = none
      unfold subFind
      rw [List.find?_cons_of_neg]
      · rfl
      · simp
        intro he
        exact h he.symm

theorem subFind_insTable_none (tn tn' : String) (h : ¬ tn' = tn) (t : TrafficTable) :
    ∀ d : ExportDict, (∀ p ∈ d, subFind p.2 tn' = none) →
      ∀ p' ∈ insTable d tn t, subFind p'.2 tn' = none := by
  induction t with
  | nil =>
    intro d hd p' hp'
    exact hd p' hp'
  | cons r rest ih =>
    intro d hd p' hp'
    rw [insTable_cons] at hp'
    exact ih _ (subFind_dictInsert_none d r.url tn tn' (rowData r) h hd) p' hp'

theorem tablesWith_cons (tn0 : String) (t0 : TrafficTable)
    (rest : List (String × TrafficTable)) (u : String) :
    tablesWith ((tn0, t0) :: rest) u =
      (match tableLookup t0 u with
       | some r => (tn0, rowData r) :: tablesWith rest u
       | none => tablesWith rest u) := by
  unfold tablesWith
  rw [List.filterMap_cons]
  cases tableLookup t0 u <;> simp

theorem foldTables_cons (d : ExportDict) (tn0 : String) (t0 : TrafficTable)
    (rest : List (String × TrafficTable)) :
    foldTables d ((tn0, t0) :: rest) = foldTables (insTable d tn0 t0) rest := rfl

theorem dictFind_mem_of_some (d : ExportDict) (u : String) (m : SubDict)
    (h : dictFind d u = some m) : ∃ p ∈ d, p.2 = m := by
  unfold dictFind at h
  cases hf : d.find? (fun p => p.1 = u) with
  | none =>
    rw [hf] at h
    cases h
  | some p =>
    rw [hf] at h
    refine ⟨p, List.mem_of_find?_eq_some hf, ?_⟩
    injection h with h2

theorem foldTables_dictFind (ts : List (String × TrafficTable)) :
    ∀ d : ExportDict,
      (ts.map Prod.fst).Nodup →
      (∀ tt ∈ ts, (tt.2.map (fun r => r.url)).Nodup) →
      (∀ p ∈ d, ∀ tn ∈ ts.map Prod.fst, subFind p.2 tn = none) →
      ∀ u : String,
        dictFind (foldTables d ts) u =
          match dictFind d u with
          | some m => some (m ++ tablesWith ts u)
          | none =>
            if tablesWith ts u = [] then none else some (tablesWith ts u) := by
  induction ts with
  | nil =>
    intro d _ _ _ u
    show dictFind d u = _
    cases dictFind d u <;> simp [tablesWith]
  | cons tt rest ih =>
    intro d hnames htables hd u
    obtain ⟨tn0, t0⟩ := tt
    have hnames' : tn0 ∉ rest.map Prod.fst ∧ (rest.map Prod.fst).Nodup := by
      rw [List.map_cons, List.nodup_cons] at hnames
      exact hnames
    have ht0 : (t0.map (fun r => r.url)).Nodup :=
      htables (tn0, t0) (List.mem_cons_self _ _)
    have hd' : ∀ p ∈ insTable d tn0 t0, ∀ tn ∈ rest.map Prod.fst,
        subFind p.2 tn = none := by
      intro p hp tn htn
      have htn0 : ¬ tn = tn0 := by
        intro he
        exact hnames'.1 (he ▸ htn)
      exact subFind_insTable_none tn0 tn htn0 t0 d
        (fun q hq => hd q hq tn (by rw [List.map_cons]; exact List.mem_cons_of_mem _ htn))
        p hp
    rw [foldTables_cons, ih _ hnames'.2
      (fun q hq => htables q (List.mem_cons_of_mem _ hq)) hd' u]
    rw [insTable_dictFind tn0 t0 ht0 d u, tablesWith_cons]
    cases hL : tableLookup t0 u with
    | some r =>
      cases hF : dictFind d u with
      | some m =>
        have hm : subFind m tn0 = none := by
          rcases dictFind_mem_of_some d u m hF with ⟨p, hpmem, hp2⟩
          rw [← hp2]
          exact hd p hpmem tn0 (by rw [List.map_cons]; exact List.mem_cons_self _ _)
        simp [assocSet_of_absent m tn0 (rowData r) hm, List.append_assoc]
      | none =>
        simp
    | none =>
      cases hF : dictFind d u with
      | some m => simp
      | none => simp

end Traffic

namespace Traffic

theorem dictKeys_foldTables_mem (ts : List (String × TrafficTable)) :
    ∀ (d : ExportDict) (v : String),
      v ∈ dictKeys (foldTables d ts) ↔ v ∈ dictKeys d ∨ v ∈ allUrls ts := by
  induction ts with
  | nil =>
    intro d v
    simp [foldTables, allUrls]
  | cons tt rest ih =>
    intro d v
    obtain ⟨tn0, t0⟩ := tt
    rw [foldTables_cons, ih, dictKeys_insTable_mem]
    unfold allUrls
    rw [List.flatMap_cons, List.mem_append]
    show (v ∈ dictKeys d ∨ v ∈ t0.map (fun r => r.url)) ∨
        v ∈ rest.flatMap (fun tt => tt.2.map (fun r => r.url)) ↔
      v ∈ dictKeys d ∨ (v ∈ t0.map (fun r => r.url) ∨
        v ∈ rest.flatMap (fun tt => tt.2.map (fun r => r.url)))
    tauto

theorem dictKeys_foldTables_nodup (ts : List (String × TrafficTable)) :
    ∀ d : ExportDict, (dictKeys d).Nodup → (dictKeys (foldTables d ts)).Nodup := by
  induction ts with
  | nil =>
    intro d h
    exact h
  | cons tt rest ih =>
    intro d h
    obtain ⟨tn0, t0⟩ := tt
    rw [foldTables_cons]
    exact ih _ (dictKeys_insTable_nodup tn0 t0 d h)

theorem dictFind_of_mem (d : ExportDict) (hnd : (dictKeys d).Nodup)
    (p : String × SubDict) (hp : p ∈ d) :
    dictFind d p.1 = some p.2 := by
  induction d with
  | nil => cases hp
  | cons q rest ih =>
    have hnd' : q.1 ∉ dictKeys rest ∧ (dictKeys rest).Nodup := by
      rw [show dictKeys (q :: rest) = q.1 :: dictKeys rest from rfl,
        List.nodup_cons] at hnd
      exact hnd
    rcases List.mem_cons.mp hp with rfl | hp'
    · unfold dictFind
      rw [List.find?_cons_of_pos]
      · rfl
      · simp
    · have hq : ¬ q.1 = p.1 := by
        intro he
        exact hnd'.1 (he ▸ List.mem_map.mpr ⟨p, hp', rfl⟩)
      unfold dictFind
      rw [List.find?_cons_of_neg]
      · exact ih hnd'.2 hp'
      · simp [hq]

theorem tablesWith_fst_mem (ts : List (String × TrafficTable)) (u : String) :
    ∀ q ∈ tablesWith ts u, q.1 ∈ ts.map Prod.fst := by
  intro q hq
  rcases List.mem_filterMap.mp hq with ⟨tt, htt, hf⟩
  cases hL : tableLookup tt.2 u with
  | none =>
    rw [hL] at hf
    cases hf
  | some r =>
    rw [hL] at hf
    injection hf with hf2
    rw [← hf2]
    exact List.mem_map.mpr ⟨tt, htt, rfl⟩

theorem find?_tablesWith (ts : List (String × TrafficTable)) (u : String) :
    ∀ (tn : String) (t : TrafficTable),
      (ts.map Prod.fst).Nodup → (tn, t) ∈ ts →
      (tablesWith ts u).find? (fun q => q.1 = tn) =
        (tableLookup t u).map (fun r => (tn, rowData r)) := by
  induction ts with
  | nil =>
    intro tn t _ hmem
    cases hmem
  | cons tt rest ih =>
    intro tn t hnd hmem
    obtain ⟨tn0, t0⟩ := tt
    have hnd' : tn0 ∉ rest.map Prod.fst ∧ (rest.map Prod.fst).Nodup := by
      rw [List.map_cons, List.nodup_cons] at hnd
      exact hnd
    rw [tablesWith_cons]
    rcases List.mem_cons.mp hmem with heq | hmem'
    · have h1 : tn0 = tn := congrArg Prod.fst heq.symm
      have h2 : t0 = t := congrArg Prod.snd heq.symm
      subst h1
      subst h2
      cases hL : tableLookup t0 u with
      | some r =>
        rw [List.find?_cons_of_pos]
        · rfl
        · simp
      | none =>
        apply List.find?_eq_none.mpr
        intro q hq
        simp only [decide_eq_true_eq]
        intro hqtn
        exact hnd'.1 (hqtn ▸ tablesWith_fst_mem rest u q hq)
    · have htn : tn ∈ rest.map Prod.fst := List.mem_map.mpr ⟨(tn, t), hmem', rfl⟩
      have hne : ¬ tn0 = tn := by
        intro he
        exact hnd'.1 (he ▸ htn)
      cases hL : tableLookup t0 u with
      | some r =>
        rw [List.find?_cons_of_neg]
        · exact ih tn t hnd'.2 hmem'
        · simp [hne]
      | none =>
        exact ih tn t hnd'.2 hmem'

end Traffic

namespace Traffic

theorem match_option_contribution (t : TrafficTable) (tn u : String) :
    (match (tableLookup t u).map (fun r => (tn, rowData r)) with
     | some q => q.2
     | none => [some "0", some "0", some "0"]) = contribution t u := by
  unfold contribution
  cases tableLookup t u <;> rfl

theorem zip_tables_eq (z s b k : TrafficTable) :
    tableNames.zip [z, s, b, k] =
      [("zakupka", z), ("satom", s), ("tomasBy", b), ("tomasKz", k)] := rfl

theorem zip_tables_names_nodup (z s b k : TrafficTable) :
    ((tableNames.zip [z, s, b, k]).map Prod.fst).Nodup := by
  show (["zakupka", "satom", "tomasBy", "tomasKz"] : List String).Nodup
  decide

theorem reformatRow_tablesWith (z s b k : TrafficTable) (u : String) :
    (reformatRow u (tablesWith (tableNames.zip [z, s, b, k]) u)).2 =
      contribution z u ++ contribution s u ++ contribution b u ++ contribution k u := by
  have hnd := zip_tables_names_nodup z s b k
  have hsnd : (reformatRow u (tablesWith (tableNames.zip [z, s, b, k]) u)).2 =
      tableNames.flatMap (fun tn =>
        match (tablesWith (tableNames.zip [z, s, b, k]) u).find? (fun q => q.1 = tn) with
        | some q => q.2
        | none => [some "0", some "0", some "0"]) := rfl
  have hflat : tableNames.flatMap (fun tn =>
      match (tablesWith (tableNames.zip [z, s, b, k]) u).find? (fun q => q.1 = tn) with
      | some q => q.2
      | none => [some "0", some "0", some "0"]) =
    (match (tablesWith (tableNames.zip [z, s, b, k]) u).find?
        (fun q => q.1 = "zakupka") with
     | some q => q.2
     | none => [some "0", some "0", some "0"]) ++
    ((match (tablesWith (tableNames.zip [z, s, b, k]) u).find?
        (fun q => q.1 = "satom") with
      | some q => q.2
      | none => [some "0", some "0", some "0"]) ++
     ((match (tablesWith (tableNames.zip [z, s, b, k]) u).find?
        (fun q => q.1 = "tomasBy") with
       | some q => q.2
       | none => [some "0", some "0", some "0"]) ++
      (match (tablesWith (tableNames.zip [z, s, b, k]) u).find?
        (fun q => q.1 = "tomasKz") with
       | some q => q.2
       | none => [some "0", some "0", some "0"]))) := by
    simp [tableNames]
  rw [hsnd, hflat]
  rw [show (tablesWith (tableNames.zip [z, s, b, k]) u).find? (fun q => q.1 = "zakupka") =
      (tableLookup z u).map (fun r => ("zakupka", rowData r)) from
    find?_tablesWith _ u "zakupka" z hnd (by rw [zip_tables_eq]; simp)]
  rw [show (tablesWith (tableNames.zip [z, s, b, k]) u).find? (fun q => q.1 = "satom") =
      (tableLookup s u).map (fun r => ("satom", rowData r)) from
    find?_tablesWith _ u "satom" s hnd (by rw [zip_tables_eq]; simp)]
  rw [show (tablesWith (tableNames.zip [z, s, b, k]) u).find? (fun q => q.1 = "tomasBy") =
      (tableLookup b u).map (fun r => ("tomasBy", rowData r)) from
    find?_tablesWith _ u "tomasBy" b hnd (by rw [zip_tables_eq]; simp)]
  rw [show (tablesWith (tableNames.zip [z, s, b, k]) u).find? (fun q => q.1 = "tomasKz") =
      (tableLookup k u).map (fun r => ("tomasKz", rowData r)) from
    find?_tablesWith _ u "tomasKz" k hnd (by rw [zip_tables_eq]; simp)]
  rw [match_option_contribution z "zakupka" u, match_option_contribution s "satom" u,
    match_option_contribution b "tomasBy" u, match_option_contribution k "tomasKz" u]
  rw [List.append_assoc, List.append_assoc]

/-- C6: `exportJoined` produces the header
`URL, <table>_Google, <table>_Yandex, <table>_SeansAll` for the four
source tables in order `zakupka, satom, tomasBy, tomasKz`, and exactly
one output row per distinct URL appearing in any of the four tables; for
each URL, a table with no row for that URL contributes the triple
`("0","0","0")`, a table with a row contributes that row's three values. -/
theorem exportJoined_characterization (z s b k : TrafficTable)
    (hz : (z.map (fun r => r.url)).Nodup) (hs : (s.map (fun r => r.url)).Nodup)
    (hb : (b.map (fun r => r.url)).Nodup) (hk : (k.map (fun r => r.url)).Nodup) :
    (exportJoined z s b k).1 =
      ["URL", "zakupka_Google", "zakupka_Yandex", "zakupka_SeansAll",
       "satom_Google", "satom_Yandex", "satom_SeansAll",
       "tomasBy_Google", "tomasBy_Yandex", "tomasBy_SeansAll",
       "tomasKz_Google", "tomasKz_Yandex", "tomasKz_SeansAll"] ∧
    ((exportJoined z s b k).2.map Prod.fst).Nodup ∧
    (∀ u : String,
      u ∈ (exportJoined z s b k).2.map Prod.fst ↔
        u ∈ allUrls (tableNames.zip [z, s, b, k])) ∧
    ∀ p ∈ (exportJoined z s b k).2,
      p.2 = contribution z p.1 ++ contribution s p.1 ++ contribution b p.1 ++
        contribution k p.1 := by
  have hnames := zip_tables_names_nodup z s b k
  have htables : ∀ tt ∈ tableNames.zip [z, s, b, k],
      (tt.2.map (fun r => r.url)).Nodup := by
    intro tt htt
    rw [zip_tables_eq] at htt
    simp only [List.mem_cons, List.not_mem_nil, or_false] at htt
    rcases htt with rfl | rfl | rfl | rfl
    · exact hz
    · exact hs
    · exact hb
    · exact hk
  have hrows : (exportJoined z s b k).2 =
      (buildDict (tableNames.zip [z, s, b, k])).map (fun p => reformatRow p.1 p.2) := rfl
  have hkeys : (exportJoined z s b k).2.map Prod.fst =
      dictKeys (buildDict (tableNames.zip [z, s, b, k])) := by
    rw [hrows, List.map_map]
    rfl
  have hdict : ∀ u, dictFind (buildDict (tableNames.zip [z, s, b, k])) u =
      if tablesWith (tableNames.zip [z, s, b, k]) u = [] then none
      else some (tablesWith (tableNames.zip [z, s, b, k]) u) := by
    intro u
    have h2 := foldTables_dictFind (tableNames.zip [z, s, b, k]) [] hnames htables
      (by intro p hp; cases hp) u
    exact h2
  have hnodupKeys : (dictKeys (buildDict (tableNames.zip [z, s, b, k]))).Nodup :=
    dictKeys_foldTables_nodup _ [] (by simp [dictKeys])
  refine ⟨rfl, ?_, ?_, ?_⟩
  · rw [hkeys]
    exact hnodupKeys
  · intro u
    rw [hkeys]
    have h3 := dictKeys_foldTables_mem (tableNames.zip [z, s, b, k]) [] u
    rw [show foldTables [] (tableNames.zip [z, s, b, k]) =
        buildDict (tableNames.zip [z, s, b, k]) from rfl] at h3
    rw [h3]
    simp [dictKeys]
  · intro p hp
    rw [hrows] at hp
    rcases List.mem_map.mp hp with ⟨q, hq, hpq⟩
    have hfind : dictFind (buildDict (tableNames.zip [z, s, b, k])) q.1 = some q.2 :=
      dictFind_of_mem _ hnodupKeys q hq
    rw [hdict q.1] at hfind
    by_cases hemp : tablesWith (tableNames.zip [z, s, b, k]) q.1 = []
    · rw [if_pos hemp] at hfind
      cases hfind
    · rw [if_neg hemp] at hfind
      injection hfind with hq2
      rw [← hpq, ← hq2]
      exact reformatRow_tablesWith z s b k q.1

theorem exportJoined_characterization_witness :
    (([⟨"x", some "1", none, some "3"⟩] : TrafficTable).map
        (fun r => r.url)).Nodup ∧
    (([] : TrafficTable).map (fun r => r.url)).Nodup ∧
    (([⟨"y", some "9", some "8", some "7"⟩, ⟨"x", none, none, none⟩] :
        TrafficTable).map (fun r => r.url)).Nodup ∧
    ((exportJoined [⟨"x", some "1", none, some "3"⟩] []
        [⟨"y", some "9", some "8", some "7"⟩, ⟨"x", none, none, none⟩] []).1 =
      ["URL", "zakupka_Google", "zakupka_Yandex", "zakupka_SeansAll",
       "satom_Google", "satom_Yandex", "satom_SeansAll",
       "tomasBy_Google", "tomasBy_Yandex", "tomasBy_SeansAll",
       "tomasKz_Google", "tomasKz_Yandex", "tomasKz_SeansAll"] ∧
    ((exportJoined [⟨"x", some "1", none, some "3"⟩] []
        [⟨"y", some "9", some "8", some "7"⟩, ⟨"x", none, none, none⟩] []).2.map
        Prod.fst).Nodup ∧
    (∀ u : String,
      u ∈ (exportJoined [⟨"x", some "1", none, some "3"⟩] []
        [⟨"y", some "9", some "8", some "7"⟩, ⟨"x", none, none, none⟩] []).2.map
          Prod.fst ↔
        u ∈ allUrls (tableNames.zip
          [[⟨"x", some "1", none, some "3"⟩], [],
           [⟨"y", some "9", some "8", some "7"⟩, ⟨"x", none, none, none⟩], []])) ∧
    ∀ p ∈ (exportJoined [⟨"x", some "1", none, some "3"⟩] []
        [⟨"y", some "9", some "8", some "7"⟩, ⟨"x", none, none, none⟩] []).2,
      p.2 = contribution [⟨"x", some "1", none, some "3"⟩] p.1 ++
        contribution [] p.1 ++
        contribution [⟨"y", some "9", some "8", some "7"⟩, ⟨"x", none, none, none⟩]
          p.1 ++
        contribution [] p.1) :=
  ⟨by decide, by decide, by decide,
    exportJoined_characterization
      [⟨"x", some "1", none, some "3"⟩] []
      [⟨"y", some "9", some "8", some "7"⟩, ⟨"x", none, none, none⟩] []
      (by decide) (by decide) (by decide) (by decide)⟩

end Traffic
